import Mathlib

/-!
Verification of the packet-tracer-generator core (`src/lib.rs`).

A shallow embedding of the repository's core library: the topology model
(`Device`, `Link`, `App`), the address/interface allocation performed by
`App::link`, the oriented query `App::get_directed_link`, `App::unlink`,
and the configuration compiler `App::to_commands`.

Modelling conventions:
* Device handles (`slotmap::DefaultKey`) are modelled as `Nat` slot indices.
  The core never deletes devices, so generations are constant and the derived
  key order coincides with the slot-index order (insertion order).
* The `HashMap<(DefaultKey, DefaultKey), Link>` link table is modelled as an
  association list `List ((Nat × Nat) × Link)`; `entry(..).or_default()`
  followed by assignment of every field becomes `upsertLink` (replace in
  place when the key is present, append otherwise).  A `HashMap` has no
  defined iteration order; the list order stands in for it.
* `u8` / `u32` machine integers become `Nat`, with an explicit `% 256` where
  the source increments the `u8` field `next_iface` (release-mode wrapping
  semantics).
* IPv4 networks (`ipnet::Ipv4Net`) are `⟨addr, prefix_len⟩` with `addr` a
  `Nat` below `2^32`.  The claims only exercise the IPv4 family; the IPv6 arm
  of `to_ipnet` is the same code on 128-bit quantities.  `IpNet::from_str`
  (string parsing) happens at the boundary, so `App.link` takes the parsed
  network directly.
* The source signals `DuplicateEndpoint` / `InvalidBlock` via assertions that
  fire before any mutation; fallible operations are embedded as
  `Except Err _`, with the checks performed in source order before the state
  is touched.
* The cosmetic `x`/`y` position fields are `f32` floats that the core stores
  but never reads; no claim mentions them and they are omitted.
-/

namespace Ptg

/-- The all-ones-high network mask of an IPv4 prefix, as a `Nat`
(`Ipv4Net::netmask`): the top `p` of 32 bits set. -/
def netmaskNat (p : Nat) : Nat := 2 ^ 32 - 2 ^ (32 - p)

/-- The host mask (`Ipv4Net::hostmask`), the complement of the netmask:
the low `32 - p` bits set. -/
def hostmaskNat (p : Nat) : Nat := 2 ^ (32 - p) - 1

/-- `ipnet::Ipv4Net`: an address together with a prefix length.  The address
keeps its host bits (`Ipv4Net::new` does not truncate). -/
structure Ipv4Net where
  addr : Nat
  prefix_len : Nat
  deriving DecidableEq, Repr

/-- `Ipv4Net::network`: the address AND the mask. -/
def Ipv4Net.network (n : Ipv4Net) : Nat := Nat.land n.addr (netmaskNat n.prefix_len)

/-- First address yielded by `Ipv4Net::hosts()`: the network address for
`/31` and `/32`, otherwise the network address plus one. -/
def Ipv4Net.hostsStart (n : Ipv4Net) : Nat :=
  if 31 ≤ n.prefix_len then n.network else n.network + 1

/-- Number of addresses yielded by `Ipv4Net::hosts()`: the whole block for
`/31` and `/32`, otherwise the block minus network and broadcast. -/
def Ipv4Net.hostsLen (n : Ipv4Net) : Nat :=
  if 31 ≤ n.prefix_len then 2 ^ (32 - n.prefix_len) else 2 ^ (32 - n.prefix_len) - 2

/-- `Ipv4Net::hosts()` as a list, ascending from `hostsStart`. -/
def Ipv4Net.hosts (n : Ipv4Net) : List Nat :=
  (List.range n.hostsLen).map (fun i => n.hostsStart + i)

/-- `to_ipnet`: attach a prefix length to a host address. -/
def to_ipnet (a : Nat) (cidr : Nat) : Ipv4Net := ⟨a, cidr⟩

/-- The `Redistributions` record. -/
structure Redistributions where
  ospf_to_rip : Bool
  deriving DecidableEq, Repr

/-- A router (`Device`).  `next_iface` is a `u8` in the source. -/
structure Device where
  name : String
  redistributions : Redistributions
  next_iface : Nat
  deriving DecidableEq, Repr

instance : Inhabited Device := ⟨⟨"", ⟨false⟩, 0⟩⟩

/-- A link between routers; the key of the entry always has its first
component less than its second. -/
structure Link where
  r1 : Ipv4Net
  r2 : Ipv4Net
  r1_iface : Nat
  r2_iface : Nat
  ospf_area : Option Nat
  deriving DecidableEq, Repr

/-- A stored link re-oriented around a chosen close endpoint. -/
structure DirectedLink where
  close_key : Nat
  far_key : Nat
  close_ip : Ipv4Net
  far_ip : Ipv4Net
  close_iface : Nat
  ospf_area : Option Nat
  deriving DecidableEq, Repr

instance : Inhabited DirectedLink := ⟨⟨0, 0, ⟨0, 0⟩, ⟨0, 0⟩, 0, none⟩⟩

/-- The application state (`App`). -/
structure App where
  devices : List Device
  links : List ((Nat × Nat) × Link)
  rip_enabled : List Nat
  deriving DecidableEq, Repr

/-- The error kinds of the core, raised by the source's assertions. -/
inductive Err where
  | duplicateEndpoint
  | invalidBlock
  deriving DecidableEq, Repr

instance {ε α : Type} [DecidableEq ε] [DecidableEq α] : DecidableEq (Except ε α) := fun
  | .ok a, .ok b =>
    if h : a = b then .isTrue (by rw [h]) else .isFalse (by simpa using h)
  | .error e, .error f =>
    if h : e = f then .isTrue (by rw [h]) else .isFalse (by simpa using h)
  | .ok _, .error _ => .isFalse (by simp)
  | .error _, .ok _ => .isFalse (by simp)

/-- `App::new`. -/
def App.new : App := ⟨[], [], []⟩

/-- `App::add_device(name) ... .redistribute_ospf_to_rip(flag).finish()`:
the builder chain collapsed into one registration step.  Returns the fresh
handle (the next slot index) together with the new state.  No name
uniqueness is enforced. -/
def App.add_device (app : App) (name : String) (flag : Bool) : Nat × App :=
  (app.devices.length,
   { app with devices := app.devices ++ [⟨name, ⟨flag⟩, 0⟩] })

/-- Find the stored record for a canonical key (`HashMap::get`). -/
def lookupLink (links : List ((Nat × Nat) × Link)) (key : Nat × Nat) : Option Link :=
  (links.find? (fun kl => kl.fst == key)).map (·.snd)

/-- `App::get_directed_link`.  The `assert_ne!` becomes the
`DuplicateEndpoint` error; then the pair is canonicalized and the stored
record, when present, is re-oriented. -/
def App.get_directed_link (app : App) (close_key far_key : Nat) :
    Except Err (Option DirectedLink) :=
  if close_key = far_key then .error .duplicateEndpoint
  else
    let key := if close_key < far_key then (close_key, far_key) else (far_key, close_key)
    .ok ((lookupLink app.links key).map (fun link =>
      { close_key := close_key
        far_key := far_key
        close_ip := if close_key < far_key then link.r1 else link.r2
        far_ip := if close_key < far_key then link.r2 else link.r1
        close_iface := if close_key < far_key then link.r1_iface else link.r2_iface
        ospf_area := link.ospf_area }))

/-- `HashMap::entry(key).or_default()` followed by assignment of every field:
replace in place when the key is present, append otherwise. -/
def upsertLink (links : List ((Nat × Nat) × Link)) (key : Nat × Nat) (link : Link) :
    List ((Nat × Nat) × Link) :=
  if links.any (fun kl => kl.fst == key) then
    links.map (fun kl => if kl.fst == key then (key, link) else kl)
  else
    links ++ [(key, link)]

/-- Increment (`u8`-wrapping) the interface counter of the device in slot `k`. -/
def bumpIface : List Device → Nat → List Device
  | [], _ => []
  | d :: ds, 0 => { d with next_iface := (d.next_iface + 1) % 256 } :: ds
  | d :: ds, k + 1 => d :: bumpIface ds k

/-- `App::link`.  The two assertions become the `DuplicateEndpoint` and
`InvalidBlock` errors, checked in source order before any mutation; then the
pair is canonicalized, the first two host addresses of the block are written
(low key first), the area stored, and both endpoints' interface counters are
read and then incremented. -/
def App.link (app : App) (r1 r2 : Nat) (ip : Ipv4Net) (ospf_area : Option Nat) :
    Except Err App :=
  if r1 = r2 then .error .duplicateEndpoint
  else if ip.hosts.length < 2 then .error .invalidBlock
  else
    let p := if r1 < r2 then (r1, r2) else (r2, r1)
    let link : Link :=
      { r1 := to_ipnet (ip.hosts.getD 0 0) ip.prefix_len
        r2 := to_ipnet (ip.hosts.getD 1 0) ip.prefix_len
        ospf_area := ospf_area
        r1_iface := (app.devices.getD p.fst default).next_iface
        r2_iface := (app.devices.getD p.snd default).next_iface }
    .ok { app with
          links := upsertLink app.links p link
          devices := bumpIface (bumpIface app.devices p.fst) p.snd }

/-- `App::unlink`: the `assert_ne!` becomes the error; then the pair is
canonicalized and the record removed when present. -/
def App.unlink (app : App) (r1 r2 : Nat) : Except Err App :=
  if r1 = r2 then .error .duplicateEndpoint
  else
    let key := if r1 < r2 then (r1, r2) else (r2, r1)
    .ok { app with links := app.links.eraseP (fun kl => kl.fst == key) }

/-! ## The configuration compiler (`App::to_commands`) -/

/-- The `directly_connected` iterator of `to_commands`: scan the stored keys
for entries touching `close_key`, take the other endpoint, and orient the
record via `get_directed_link` (whose `.unwrap()` is modelled by `default`
on the unreachable arms). -/
def directlyConnected (app : App) (close_key : Nat) : List DirectedLink :=
  (app.links.filterMap (fun kl =>
      if kl.fst.fst == close_key then some kl.fst.snd
      else if kl.fst.snd == close_key then some kl.fst.fst
      else none)).map (fun far_key =>
    match app.get_directed_link close_key far_key with
    | .ok (some dl) => dl
    | _ => default)

/-- Decimal rendering of a `Nat`, as Rust's `Display` for `u8`/`u16`. -/
def showNat (n : Nat) : String := Nat.repr n

/-- Dotted-quad rendering of an IPv4 address held in a `Nat`
(`Ipv4Addr`'s `Display`). -/
def showIp (a : Nat) : String :=
  showNat (a / 2 ^ 24 % 256) ++ "." ++ showNat (a / 2 ^ 16 % 256) ++ "." ++
    showNat (a / 2 ^ 8 % 256) ++ "." ++ showNat (a % 256)

/-- The interface-stanza loop of `to_commands`: for each directly connected
link, append the `interface` stanza built by the `writeln!` with the
`concat!`-ed format string. -/
def ifaceLoop (res : String) : List DirectedLink → String
  | [] => res
  | l :: ls =>
    ifaceLoop
      (res ++ "interface GigabitEthernet " ++ showNat l.close_iface ++ "/0\n" ++
        "   ip address " ++ showIp l.close_ip.addr ++ " " ++
        showIp (netmaskNat l.close_ip.prefix_len) ++ "\n" ++
        "   no shutdown\n" ++ "exit\n" ++ "\n") ls

/-- The RIP loop of `to_commands`: one `network` line per directly connected
link whose far endpoint is in `rip_enabled`. -/
def ripLoop (rip_enabled : List Nat) (res : String) : List DirectedLink → String
  | [] => res
  | l :: ls =>
    ripLoop rip_enabled
      (if rip_enabled.contains l.far_key then
        res ++ "   network " ++ showIp l.far_ip.network ++ "\n"
      else res) ls

/-- The OSPF loop of `to_commands`: one `network ... area ...` line per
directly connected link whose `ospf_area` is set. -/
def ospfLoop (res : String) : List DirectedLink → String
  | [] => res
  | l :: ls =>
    ospfLoop
      (match l.ospf_area with
       | some a =>
         res ++ "   network " ++ showIp l.far_ip.network ++ " " ++
           showIp (hostmaskNat l.far_ip.prefix_len) ++ " area " ++ showNat a ++ "\n"
       | none => res) ls

/-- The body of the per-device loop of `to_commands`: the configuration text
for the device in slot `close_key`. -/
def deviceCommands (app : App) (close_key : Nat) (device : Device) : String :=
  let conn := directlyConnected app close_key
  let res := "enable\nconfigure terminal\n\n"
  let res := ifaceLoop res conn
  let res := res ++ "router rip\n   version 2\n"
  let res := ripLoop app.rip_enabled res conn
  let res := res ++ "exit\n\n"
  let res := res ++ "router ospf 1\n"
  let res := if device.redistributions.ospf_to_rip then
      res ++ "   redistribute rip subnets\n"
    else res
  let res := ospfLoop res conn
  let res := res ++ "exit\n\n"
  res ++ "\nexit\ndisable\n"

/-- `HashMap::insert` on the name-keyed output map: overwrite the value when
the key is present, append otherwise. -/
def insertReplace (m : List (String × String)) (k v : String) : List (String × String) :=
  if m.any (fun e => e.fst == k) then
    m.map (fun e => if e.fst == k then (k, v) else e)
  else
    m ++ [(k, v)]

/-- `App::to_commands`: iterate the devices in slot order and insert each
device's text under its name. -/
def App.to_commands (app : App) : List (String × String) :=
  app.devices.enum.foldl
    (fun m kv => insertReplace m kv.snd.name (deviceCommands app kv.fst kv.snd)) []

/-! ## Test fixtures -/

/-- Two devices `R1`, `R2`, registered in that order. -/
def demoApp : App := ((App.new.add_device "R1" false).snd.add_device "R2" false).snd

/-- `10.0.0.0/30`. -/
def blk0 : Ipv4Net := ⟨167772160, 30⟩

/-- `10.0.0.4/30`. -/
def blk4 : Ipv4Net := ⟨167772164, 30⟩

/-- The state after `link(R1, R2, "10.0.0.0/30", None)` on `demoApp`. -/
def c1s3 : App :=
  ⟨[⟨"R1", ⟨false⟩, 1⟩, ⟨"R2", ⟨false⟩, 1⟩],
   [((0, 1), ⟨⟨167772161, 30⟩, ⟨167772162, 30⟩, 0, 0, none⟩)], []⟩

/-- The state after the further `link(R2, R1, "10.0.0.4/30", None)`. -/
def c1s4 : App :=
  ⟨[⟨"R1", ⟨false⟩, 2⟩, ⟨"R2", ⟨false⟩, 2⟩],
   [((0, 1), ⟨⟨167772165, 30⟩, ⟨167772166, 30⟩, 1, 1, none⟩)], []⟩

/-! ## Reachable states and the well-formedness invariant -/

/-- States reachable through the core's API: start from `App::new`, register
devices, link/unlink registered devices (the `slotmap` indexing in
`App::link` presumes handles obtained from `add_device`), and push handles
onto the public `rip_enabled` vector. -/
inductive Reachable : App → Prop where
  | init : Reachable App.new
  | add_device {s : App} {name : String} {flag : Bool} :
      Reachable s → Reachable (s.add_device name flag).snd
  | link {s s' : App} {r1 r2 : Nat} {ip : Ipv4Net} {area : Option Nat} :
      Reachable s → r1 < s.devices.length → r2 < s.devices.length →
      s.link r1 r2 ip area = .ok s' → Reachable s'
  | unlink {s s' : App} {r1 r2 : Nat} :
      Reachable s → s.unlink r1 r2 = .ok s' → Reachable s'
  | rip_enable {s : App} {k : Nat} :
      Reachable s → Reachable { s with rip_enabled := s.rip_enabled ++ [k] }

/-- Well-formedness of one stored link entry: the key is strictly ordered
and bounded by the device count, and the two addresses are the first two
host addresses of some block with at least two hosts, both carrying the
block's prefix length. -/
def LinkWf (devCount : Nat) (kl : (Nat × Nat) × Link) : Prop :=
  kl.fst.fst < kl.fst.snd ∧ kl.fst.snd < devCount ∧
  ∃ ip : Ipv4Net, 2 ≤ ip.hostsLen ∧
    kl.snd.r1 = ⟨ip.hostsStart, ip.prefix_len⟩ ∧
    kl.snd.r2 = ⟨ip.hostsStart + 1, ip.prefix_len⟩

/-- Well-formedness of an application state: every stored entry is
well-formed and the stored keys are pairwise distinct (a `HashMap` cannot
hold two entries with the same key). -/
def AppWf (s : App) : Prop :=
  (∀ kl ∈ s.links, LinkWf s.devices.length kl) ∧ (s.links.map (·.fst)).Nodup

theorem hosts_length (ip : Ipv4Net) : ip.hosts.length = ip.hostsLen := by
  simp [Ipv4Net.hosts]

theorem hosts_getD_zero (ip : Ipv4Net) (h : 2 ≤ ip.hostsLen) :
    ip.hosts.getD 0 0 = ip.hostsStart := by
  obtain ⟨k, hk⟩ : ∃ k, ip.hostsLen = k + 2 := ⟨ip.hostsLen - 2, by omega⟩
  simp [Ipv4Net.hosts, hk, List.range_succ_eq_map]

theorem hosts_getD_one (ip : Ipv4Net) (h : 2 ≤ ip.hostsLen) :
    ip.hosts.getD 1 0 = ip.hostsStart + 1 := by
  obtain ⟨k, hk⟩ : ∃ k, ip.hostsLen = k + 2 := ⟨ip.hostsLen - 2, by omega⟩
  simp [Ipv4Net.hosts, hk, List.range_succ_eq_map, List.getD]

theorem bumpIface_length (ds : List Device) (k : Nat) :
    (bumpIface ds k).length = ds.length := by
  induction ds generalizing k with
  | nil => rfl
  | cons d ds ih =>
    cases k with
    | zero => rfl
    | succ k => simp [bumpIface, ih]

theorem mem_upsertLink {links : List ((Nat × Nat) × Link)} {key : Nat × Nat}
    {l : Link} {kl : (Nat × Nat) × Link} (h : kl ∈ upsertLink links key l) :
    kl ∈ links ∨ kl = (key, l) := by
  unfold upsertLink at h
  split at h
  · obtain ⟨kl0, hkl0, hmap⟩ := List.mem_map.mp h
    by_cases hk : kl0.fst == key
    · simp [hk] at hmap
      exact Or.inr hmap.symm
    · simp [hk] at hmap
      exact Or.inl (hmap ▸ hkl0)
  · rcases List.mem_append.mp h with h1 | h2
    · exact Or.inl h1
    · exact Or.inr (List.mem_singleton.mp h2)

theorem keys_upsertLink_pos {links : List ((Nat × Nat) × Link)} {key : Nat × Nat}
    (l : Link) (h : links.any (fun kl => kl.fst == key)) :
    (upsertLink links key l).map (·.fst) = links.map (·.fst) := by
  unfold upsertLink
  rw [if_pos h, List.map_map]
  refine List.map_congr_left (fun kl _ => ?_)
  by_cases hk : kl.fst = key
  · simp [hk]
  · simp [hk]

theorem keys_upsertLink_neg {links : List ((Nat × Nat) × Link)} {key : Nat × Nat}
    (l : Link) (h : ¬ links.any (fun kl => kl.fst == key)) :
    (upsertLink links key l).map (·.fst) = links.map (·.fst) ++ [key] ∧
      key ∉ links.map (·.fst) := by
  unfold upsertLink
  rw [if_neg h]
  refine ⟨by simp, fun hmem => h ?_⟩
  obtain ⟨kl, hkl, hfst⟩ := List.mem_map.mp hmem
  exact List.any_eq_true.mpr ⟨kl, hkl, by simp [hfst]⟩

theorem LinkWf.mono {m n : Nat} {kl : (Nat × Nat) × Link} (h : LinkWf m kl)
    (hmn : m ≤ n) : LinkWf n kl :=
  ⟨h.1, Nat.lt_of_lt_of_le h.2.1 hmn, h.2.2⟩

/-- Unfolding of a successful `App::link` call: the endpoints are distinct,
the block has at least two hosts, and the new state stores the allocated
record under the canonical key with both interface counters bumped. -/
theorem link_ok_elim {s s' : App} {a b : Nat} {ip : Ipv4Net} {ar : Option Nat}
    (h : s.link a b ip ar = .ok s') :
    a ≠ b ∧ 2 ≤ ip.hosts.length ∧
    s' = { s with
      links := upsertLink s.links (if a < b then (a, b) else (b, a))
        { r1 := to_ipnet (ip.hosts.getD 0 0) ip.prefix_len
          r2 := to_ipnet (ip.hosts.getD 1 0) ip.prefix_len
          ospf_area := ar
          r1_iface := (s.devices.getD (if a < b then a else b) default).next_iface
          r2_iface := (s.devices.getD (if a < b then b else a) default).next_iface }
      devices := bumpIface (bumpIface s.devices (if a < b then a else b))
        (if a < b then b else a) } := by
  unfold App.link at h
  split at h
  · cases h
  · next hne =>
    split at h
    · cases h
    · next hlen =>
      refine ⟨hne, by omega, ?_⟩
      cases h
      by_cases hab : a < b <;> simp [hab]

/-- Unfolding of a successful `App::unlink` call. -/
theorem unlink_ok_elim {s s' : App} {a b : Nat} (h : s.unlink a b = .ok s') :
    a ≠ b ∧
    s' = { s with
      links := s.links.eraseP
        (fun kl => kl.fst == (if a < b then (a, b) else (b, a))) } := by
  unfold App.unlink at h
  split at h
  · cases h
  · next hne => exact ⟨hne, by cases h; rfl⟩

/-- Every reachable state is well-formed: stored keys are strictly ordered
pairs of registered handles, pairwise distinct, and every stored record
holds the first two host addresses of a block with at least two hosts. -/
theorem reachable_wf {s : App} (h : Reachable s) : AppWf s := by
  induction h with
  | init => exact ⟨by simp [App.new], by simp [App.new]⟩
  | add_device h ih =>
    obtain ⟨h1, h2⟩ := ih
    refine ⟨fun kl hkl => ?_, by simpa [App.add_device] using h2⟩
    have hw := h1 kl (by simpa [App.add_device] using hkl)
    exact hw.mono (by simp [App.add_device])
  | link h ha hb hok ih =>
    obtain ⟨h1, h2⟩ := ih
    obtain ⟨hne, hlen, rfl⟩ := link_ok_elim hok
    rename_i s r1 r2 ip area
    have hlenD : (bumpIface (bumpIface s.devices (if r1 < r2 then r1 else r2))
        (if r1 < r2 then r2 else r1)).length = s.devices.length := by
      rw [bumpIface_length, bumpIface_length]
    constructor
    · intro kl hkl
      rcases mem_upsertLink hkl with hmem | rfl
      · exact (h1 kl hmem).mono (by rw [hlenD])
      · refine ⟨?_, ?_, ⟨ip, ?_, ?_, ?_⟩⟩
        · by_cases hab : r1 < r2
          · simp [hab]
          · simp [hab]
            omega
        · simp only [hlenD]
          by_cases hab : r1 < r2
          · simp [hab]
            omega
          · simp [hab]
            omega
        · rw [hosts_length] at hlen
          exact hlen
        · rw [hosts_length] at hlen
          rw [hosts_getD_zero ip hlen]
          rfl
        · rw [hosts_length] at hlen
          rw [hosts_getD_one ip hlen]
          rfl
    · by_cases hany : s.links.any
        (fun kl => kl.fst == (if r1 < r2 then (r1, r2) else (r2, r1)))
      · rw [keys_upsertLink_pos _ hany]
        exact h2
      · obtain ⟨hkeys, hnotin⟩ := keys_upsertLink_neg
          { r1 := to_ipnet (ip.hosts.getD 0 0) ip.prefix_len
            r2 := to_ipnet (ip.hosts.getD 1 0) ip.prefix_len
            ospf_area := area
            r1_iface := (s.devices.getD (if r1 < r2 then r1 else r2) default).next_iface
            r2_iface := (s.devices.getD (if r1 < r2 then r2 else r1) default).next_iface }
          hany
        rw [hkeys]
        simp [List.nodup_append, h2, hnotin]
  | unlink h hok ih =>
    obtain ⟨h1, h2⟩ := ih
    obtain ⟨hne, rfl⟩ := unlink_ok_elim hok
    rename_i s r1 r2
    refine ⟨fun kl hkl => h1 kl ((List.eraseP_sublist _).subset hkl), ?_⟩
    exact h2.sublist (List.Sublist.map (fun x => x.fst) (List.eraseP_sublist s.links))
  | rip_enable h ih => exact ih

theorem find_replace {links : List ((Nat × Nat) × Link)} {key : Nat × Nat} (l : Link)
    (h : links.any (fun kl => kl.fst == key)) :
    (links.map (fun kl => if kl.fst == key then (key, l) else kl)).find?
      (fun kl => kl.fst == key) = some (key, l) := by
  induction links with
  | nil => simp at h
  | cons kl ls ih =>
    rw [List.map_cons]
    by_cases hk : kl.fst = key
    · rw [if_pos (by simpa using hk), List.find?_cons_of_pos _ (by simp)]
    · have hkb : (kl.fst == key) = false := by simpa using hk
      rw [if_neg (by simp [hkb]), List.find?_cons_of_neg _ (by simp [hkb])]
      exact ih (by simpa [List.any_cons, hkb] using h)

theorem find_append_absent {links : List ((Nat × Nat) × Link)} {key : Nat × Nat} (l : Link)
    (h : ¬ links.any (fun kl => kl.fst == key)) :
    (links ++ [(key, l)]).find? (fun kl => kl.fst == key) = some (key, l) := by
  induction links with
  | nil => rw [List.nil_append, List.find?_cons_of_pos _ (by simp)]
  | cons kl ls ih =>
    have hk : ¬ kl.fst = key := by
      intro hc
      exact h (by simp [List.any_cons, hc])
    have hkb : (kl.fst == key) = false := by simpa using hk
    have hh : ¬ ls.any (fun kl => kl.fst == key) := by
      intro hc
      exact h (by simp [List.any_cons, hc])
    rw [List.cons_append, List.find?_cons_of_neg _ (by simp [hkb])]
    exact ih hh

/-- After an upsert, the canonical key maps to exactly the written record. -/
theorem lookupLink_upsert_self (links : List ((Nat × Nat) × Link)) (key : Nat × Nat)
    (l : Link) : lookupLink (upsertLink links key l) key = some l := by
  unfold upsertLink lookupLink
  by_cases h : links.any (fun kl => kl.fst == key)
  · rw [if_pos h, find_replace l h]
    rfl
  · rw [if_neg h, find_append_absent l h]
    rfl

theorem countP_key_of_nodup (links : List ((Nat × Nat) × Link)) (key : Nat × Nat)
    (h : (links.map (·.fst)).Nodup) :
    links.countP (fun kl => kl.fst == key) =
      if links.any (fun kl => kl.fst == key) then 1 else 0 := by
  induction links with
  | nil => simp
  | cons kl ls ih =>
    rw [List.map_cons, List.nodup_cons] at h
    by_cases hk : kl.fst = key
    · have hzero : ls.countP (fun kl => kl.fst == key) = 0 := by
        rw [List.countP_eq_zero]
        intro x hx hpx
        refine h.1 ?_
        rw [hk]
        have : x.fst = key := by simpa using hpx
        exact this ▸ List.mem_map_of_mem (·.fst) hx
      simp [List.countP_cons, List.any_cons, hk, hzero]
    · have hkb : (kl.fst == key) = false := by simpa using hk
      rw [List.countP_cons, List.any_cons, hkb]
      rw [ih h.2, Bool.false_or]
      simp

/-- After an upsert into a table with pairwise-distinct keys, exactly one
entry carries the canonical key. -/
theorem countKey_upsert_of_nodup (links : List ((Nat × Nat) × Link)) (key : Nat × Nat)
    (l : Link) (h : (links.map (·.fst)).Nodup) :
    (upsertLink links key l).countP (fun kl => kl.fst == key) = 1 := by
  unfold upsertLink
  by_cases hany : links.any (fun kl => kl.fst == key)
  · rw [if_pos hany, List.countP_map]
    have hcongr : links.countP
        ((fun kl => kl.fst == key) ∘ fun kl => if kl.fst == key then (key, l) else kl) =
        links.countP (fun kl => kl.fst == key) := by
      refine List.countP_congr (fun kl _ => ?_)
      by_cases hk : kl.fst = key <;> simp [hk]
    rw [hcongr, countP_key_of_nodup links key h, if_pos hany]
  · rw [if_neg hany, List.countP_append, countP_key_of_nodup links key h, if_neg hany]
    simp

theorem bumpIface_getD_eq (ds : List Device) (k : Nat) (d : Device)
    (hk : k < ds.length) :
    ((bumpIface ds k).getD k d).next_iface = ((ds.getD k d).next_iface + 1) % 256 := by
  induction ds generalizing k with
  | nil => simp at hk
  | cons d0 ds ih =>
    cases k with
    | zero => simp [bumpIface]
    | succ k => simpa [bumpIface] using ih k (by simpa using hk)

theorem bumpIface_getD_ne (ds : List Device) (k j : Nat) (d : Device) (h : j ≠ k) :
    (bumpIface ds k).getD j d = ds.getD j d := by
  induction ds generalizing k j with
  | nil => cases k <;> rfl
  | cons d0 ds ih =>
    cases k with
    | zero =>
      cases j with
      | zero => exact absurd rfl h
      | succ j => simp [bumpIface]
    | succ k =>
      cases j with
      | zero => simp [bumpIface]
      | succ j => simpa [bumpIface] using ih k j (by omega)

/-- A successful `link` reads both endpoints' counters and then increments
each by one, wrapping at 256 (`next_iface` is a `u8`). -/
theorem link_counters {s s' : App} {a b : Nat} {ip : Ipv4Net} {ar : Option Nat}
    (h : s.link a b ip ar = .ok s')
    (ha : a < s.devices.length) (hb : b < s.devices.length) :
    (s'.devices.getD a default).next_iface =
      ((s.devices.getD a default).next_iface + 1) % 256 ∧
    (s'.devices.getD b default).next_iface =
      ((s.devices.getD b default).next_iface + 1) % 256 := by
  obtain ⟨hne, -, rfl⟩ := link_ok_elim h
  by_cases hab : a < b
  · simp only [if_pos hab]
    constructor
    · rw [bumpIface_getD_ne _ b a _ hne, bumpIface_getD_eq _ _ _ ha]
    · rw [bumpIface_getD_eq _ _ _ (by rwa [bumpIface_length]),
        bumpIface_getD_ne _ a b _ (fun hc => hne hc.symm)]
  · simp only [if_neg hab]
    constructor
    · rw [bumpIface_getD_eq _ _ _ (by rwa [bumpIface_length]),
        bumpIface_getD_ne _ b a _ hne]
    · rw [bumpIface_getD_ne _ a b _ (fun hc => hne hc.symm),
        bumpIface_getD_eq _ _ _ hb]

/-- `link(a,b,...)` and `link(b,a,...)` are the same state transformer. -/
theorem link_comm (s : App) (a b : Nat) (ip : Ipv4Net) (ar : Option Nat) :
    s.link a b ip ar = s.link b a ip ar := by
  by_cases hab : a = b
  · subst hab
    rfl
  · have hba : ¬ b = a := fun h => hab h.symm
    unfold App.link
    rw [if_neg hab, if_neg hba]
    rcases Nat.lt_or_gt_of_ne hab with h | h
    · rw [if_pos h, if_neg (Nat.lt_asymm h)]
    · rw [if_neg (Nat.lt_asymm h), if_pos h]

/-! ## Claim theorems -/

/-- **C1.** For devices `R1`, `R2` registered in that order (so `R1`'s
handle `0` orders below `R2`'s handle `1`), `link(R1,R2,"10.0.0.0/30")`
followed by `lookupOriented(R1,R2)` yields close address `10.0.0.1/30` and
far address `10.0.0.2/30` — the lower-ordered handle gets the first usable
host of the block, the higher-ordered the second, each with the block's
prefix length — and a subsequent `link(R2,R1,"10.0.0.4/30")` makes the same
query yield `10.0.0.5/30` / `10.0.0.6/30`.
(`167772160 = 10.0.0.0`, `167772161 = 10.0.0.1`, …, `167772166 = 10.0.0.6`.) -/
theorem c1_allocation_scenario :
    (App.new.add_device "R1" false).fst = 0 ∧
    ((App.new.add_device "R1" false).snd.add_device "R2" false).fst = 1 ∧
    demoApp.link 0 1 blk0 none = .ok c1s3 ∧
    c1s3.get_directed_link 0 1 =
      .ok (some ⟨0, 1, ⟨167772161, 30⟩, ⟨167772162, 30⟩, 0, none⟩) ∧
    c1s3.link 1 0 blk4 none = .ok c1s4 ∧
    c1s4.get_directed_link 0 1 =
      .ok (some ⟨0, 1, ⟨167772165, 30⟩, ⟨167772166, 30⟩, 1, none⟩) := by
  decide

/-- **C7.** `link`, `unlink` and `lookupOriented` called with identical
handles fail with `DuplicateEndpoint` before any table access; `link` with a
block having fewer than two usable host addresses fails with `InvalidBlock`
at call time.  Both are delivered as `Except.error` values of the embedded
operations — the returned state is only produced on the `ok` path, so an
error leaves every state unchanged. -/
theorem c7_core_errors (s : App) (a b : Nat) (ip : Ipv4Net) (ar : Option Nat) :
    s.link a a ip ar = .error .duplicateEndpoint ∧
    s.unlink a a = .error .duplicateEndpoint ∧
    s.get_directed_link a a = .error .duplicateEndpoint ∧
    (a ≠ b → ip.hosts.length < 2 → s.link a b ip ar = .error .invalidBlock) := by
  refine ⟨?_, ?_, ?_, ?_⟩
  · simp [App.link]
  · simp [App.unlink]
  · simp [App.get_directed_link]
  · intro hne hlen
    simp [App.link, hne, hlen]

/-- Witness for `c7_core_errors`: evaluated on the two-device fixture, with
the one-host block `10.0.0.0/32`. -/
theorem c7_core_errors_witness :
    demoApp.link 0 0 blk0 none = .error .duplicateEndpoint ∧
    demoApp.unlink 0 0 = .error .duplicateEndpoint ∧
    demoApp.get_directed_link 0 0 = .error .duplicateEndpoint ∧
    demoApp.link 0 1 ⟨167772160, 32⟩ none = .error .invalidBlock := by
  obtain ⟨h1, h2, h3, h4⟩ := c7_core_errors demoApp 0 1 ⟨167772160, 32⟩ none
  exact ⟨h1, h2, h3, h4 (by decide) (by decide)⟩

/-- **C3.** `link(a,b,X,area)` and `link(b,a,X,area)` are the same state
transformer (the pair is canonicalized to `(idLow, idHigh)` before every
access), and in every reachable state the table never holds both orderings
`(a,b)` and `(b,a)` of a pair among its keys. -/
theorem c3_link_symmetric_and_canonical {s : App} (hs : Reachable s) :
    (∀ (a b : Nat) (ip : Ipv4Net) (ar : Option Nat),
      s.link a b ip ar = s.link b a ip ar) ∧
    (∀ a b : Nat, (a, b) ∈ s.links.map (·.fst) → (b, a) ∉ s.links.map (·.fst)) := by
  refine ⟨fun a b ip ar => link_comm s a b ip ar, fun a b hab hba => ?_⟩
  obtain ⟨h1, -⟩ := reachable_wf hs
  obtain ⟨kl1, hkl1, hfst1⟩ := List.mem_map.mp hab
  obtain ⟨kl2, hkl2, hfst2⟩ := List.mem_map.mp hba
  have w1 : a < b := by
    have hw := (h1 kl1 hkl1).1
    rw [hfst1] at hw
    exact hw
  have w2 : b < a := by
    have hw := (h1 kl2 hkl2).1
    rw [hfst2] at hw
    exact hw
  exact absurd w2 (Nat.lt_asymm w1)

/-- Witness for `c3_link_symmetric_and_canonical`, on the reachable
two-device fixture. -/
theorem c3_witness :
    demoApp.link 0 1 blk0 none = demoApp.link 1 0 blk0 none ∧
    ((0, 1) ∈ demoApp.links.map (·.fst) → (1, 0) ∉ demoApp.links.map (·.fst)) := by
  have hr : Reachable demoApp :=
    Reachable.add_device (Reachable.add_device Reachable.init)
  have h := c3_link_symmetric_and_canonical hr
  exact ⟨h.1 0 1 blk0 none, h.2 0 1⟩

/-- **C9.** In every reachable state, every stored link record holds two
distinct host addresses drawn from one subnet block, both carrying the
block's prefix length; and on every successful `link` call the record
written under the canonical key takes its two interface indices from the
respective endpoint devices' counters at the time of the write. -/
theorem c9_stored_link_invariant :
    (∀ s : App, Reachable s → ∀ kl ∈ s.links,
      kl.snd.r1.prefix_len = kl.snd.r2.prefix_len ∧
      kl.snd.r1.addr ≠ kl.snd.r2.addr ∧
      (∃ ip : Ipv4Net, kl.snd.r1.addr ∈ ip.hosts ∧ kl.snd.r2.addr ∈ ip.hosts ∧
        kl.snd.r1.prefix_len = ip.prefix_len)) ∧
    (∀ (s s' : App) (a b : Nat) (ip : Ipv4Net) (ar : Option Nat),
      s.link a b ip ar = .ok s' →
      lookupLink s'.links (if a < b then (a, b) else (b, a)) = some
        { r1 := to_ipnet (ip.hosts.getD 0 0) ip.prefix_len
          r2 := to_ipnet (ip.hosts.getD 1 0) ip.prefix_len
          ospf_area := ar
          r1_iface := (s.devices.getD (if a < b then a else b) default).next_iface
          r2_iface := (s.devices.getD (if a < b then b else a) default).next_iface }) := by
  constructor
  · intro s hs kl hkl
    obtain ⟨h1, -⟩ := reachable_wf hs
    obtain ⟨-, -, ip, hlen, hr1, hr2⟩ := h1 kl hkl
    refine ⟨by rw [hr1, hr2], by rw [hr1, hr2]; simp, ip, ?_, ?_, by rw [hr1]⟩
    · rw [hr1]
      unfold Ipv4Net.hosts
      exact List.mem_map.mpr ⟨0, List.mem_range.mpr (by omega), by simp⟩
    · rw [hr2]
      unfold Ipv4Net.hosts
      exact List.mem_map.mpr ⟨1, List.mem_range.mpr (by omega), by simp⟩
  · intro s s' a b ip ar hok
    obtain ⟨-, -, rfl⟩ := link_ok_elim hok
    exact lookupLink_upsert_self _ _ _

/-- Witness for `c9_stored_link_invariant`, on the reachable state `c1s3`
and the `link` call that produced it. -/
theorem c9_witness :
    ((167772161 : Nat) ≠ 167772162 ∧
      ∃ ip : Ipv4Net, (167772161 : Nat) ∈ ip.hosts ∧ (167772162 : Nat) ∈ ip.hosts ∧
        (30 : Nat) = ip.prefix_len) ∧
    lookupLink c1s3.links (0, 1) =
      some ⟨⟨167772161, 30⟩, ⟨167772162, 30⟩, 0, 0, none⟩ := by
  have hr : Reachable demoApp :=
    Reachable.add_device (Reachable.add_device Reachable.init)
  have hok : demoApp.link 0 1 blk0 none = .ok c1s3 := by decide
  have hr3 : Reachable c1s3 := Reachable.link hr (by decide) (by decide) hok
  have h1 := (c9_stored_link_invariant.1 c1s3 hr3
    ((0, 1), ⟨⟨167772161, 30⟩, ⟨167772162, 30⟩, 0, 0, none⟩) (by decide))
  have h2 := c9_stored_link_invariant.2 demoApp c1s3 0 1 blk0 none hok
  exact ⟨⟨h1.2.1, h1.2.2⟩, h2⟩

/-- Repeated re-linking of the pair `(0, 1)` with the block `10.0.0.0/30`
(each successful call falls back to the unchanged state on error, which
never happens here). -/
def relinkIter : Nat → App → App
  | 0, s => s
  | n + 1, s => relinkIter n ((s.link 0 1 blk0 none).toOption.getD s)

set_option maxRecDepth 4000 in
/-- **C2, counterexample.**  `next_iface` is a `u8`: after 255 re-links of
the same pair device 0's counter is 255, the 256th call still succeeds but
wraps the counter to 0 — so the counter does not strictly increase on every
call — and the 257th call stores interface index 0 again, the very index
consumed by the first call, so previous interface numbers are reused. -/
theorem c2_counterexample :
    ((relinkIter 255 demoApp).devices.getD 0 default).next_iface = 255 ∧
    (relinkIter 255 demoApp).link 0 1 blk0 none = .ok (relinkIter 256 demoApp) ∧
    ((relinkIter 256 demoApp).devices.getD 0 default).next_iface = 0 ∧
    ¬ (255 : Nat) < 0 ∧
    (lookupLink (relinkIter 1 demoApp).links (0, 1)).map (fun l => l.r1_iface) =
      some 0 ∧
    (lookupLink (relinkIter 257 demoApp).links (0, 1)).map (fun l => l.r1_iface) =
      some 0 := by
  decide

/-- **C2, amended.**  Re-linking an already linked pair overwrites the full
stored record — exactly one entry exists for the canonical key afterwards
and it reflects the second call's block, area and freshly read interface
indices — and every `link` call assigns each endpoint's current
`next_iface` and then increments it **modulo 256** (the counter is a `u8`);
the counters strictly increase on a call only while their value before the
call is below 255, wrapping to 0 — and reusing earlier interface numbers —
past that point. -/
theorem c2_relink_overwrite_and_counters (s s1 s2 : App) (a b : Nat)
    (ipX ipY : Ipv4Net) (arX arY : Option Nat)
    (hs : Reachable s) (ha : a < s.devices.length) (hb : b < s.devices.length)
    (h1 : s.link a b ipX arX = .ok s1) (h2 : s1.link a b ipY arY = .ok s2) :
    s2.links.countP (fun kl => kl.fst == (if a < b then (a, b) else (b, a))) = 1 ∧
    lookupLink s2.links (if a < b then (a, b) else (b, a)) = some
      { r1 := to_ipnet (ipY.hosts.getD 0 0) ipY.prefix_len
        r2 := to_ipnet (ipY.hosts.getD 1 0) ipY.prefix_len
        ospf_area := arY
        r1_iface := (s1.devices.getD (if a < b then a else b) default).next_iface
        r2_iface := (s1.devices.getD (if a < b then b else a) default).next_iface } ∧
    ((s1.devices.getD a default).next_iface =
        ((s.devices.getD a default).next_iface + 1) % 256 ∧
      (s1.devices.getD b default).next_iface =
        ((s.devices.getD b default).next_iface + 1) % 256 ∧
      (s2.devices.getD a default).next_iface =
        ((s1.devices.getD a default).next_iface + 1) % 256 ∧
      (s2.devices.getD b default).next_iface =
        ((s1.devices.getD b default).next_iface + 1) % 256) ∧
    ((s.devices.getD a default).next_iface < 255 →
      (s.devices.getD a default).next_iface < (s1.devices.getD a default).next_iface) := by
  have ha1 : a < s1.devices.length := by
    obtain ⟨-, -, rfl⟩ := link_ok_elim h1
    simpa [bumpIface_length] using ha
  have hb1 : b < s1.devices.length := by
    obtain ⟨-, -, rfl⟩ := link_ok_elim h1
    simpa [bumpIface_length] using hb
  have hs1 : Reachable s1 := Reachable.link hs ha hb h1
  have ⟨hc1a, hc1b⟩ := link_counters h1 ha hb
  have ⟨hc2a, hc2b⟩ := link_counters h2 ha1 hb1
  have hwf1 := reachable_wf hs1
  refine ⟨?_, ?_, ⟨hc1a, hc1b, hc2a, hc2b⟩, ?_⟩
  · obtain ⟨-, -, rfl⟩ := link_ok_elim h2
    exact countKey_upsert_of_nodup _ _ _ hwf1.2
  · obtain ⟨-, -, rfl⟩ := link_ok_elim h2
    exact lookupLink_upsert_self _ _ _
  · intro hlt
    rw [hc1a]
    omega

/-- Witness for `c2_relink_overwrite_and_counters`: the two-device fixture,
re-linked from `10.0.0.0/30` to `10.0.0.4/30`. -/
theorem c2_witness :
    c1s4.links.countP (fun kl => kl.fst == (0, 1)) = 1 ∧
    lookupLink c1s4.links (0, 1) =
      some ⟨⟨167772165, 30⟩, ⟨167772166, 30⟩, 1, 1, none⟩ ∧
    (c1s3.devices.getD 0 default).next_iface = 1 ∧
    (c1s4.devices.getD 0 default).next_iface = 2 ∧
    ((demoApp.devices.getD 0 default).next_iface <
      (c1s3.devices.getD 0 default).next_iface) := by
  have hr : Reachable demoApp :=
    Reachable.add_device (Reachable.add_device Reachable.init)
  have h := c2_relink_overwrite_and_counters demoApp c1s3 c1s4 0 1 blk0 blk4
    none none hr (by decide) (by decide) (by decide) (by decide)
  exact ⟨h.1, h.2.1, by decide, by decide, h.2.2.2 (by decide)⟩

theorem lookup_none_any_false {links : List ((Nat × Nat) × Link)} {key : Nat × Nat}
    (h : lookupLink links key = none) :
    links.any (fun kl => kl.fst == key) = false := by
  unfold lookupLink at h
  have hfind : links.find? (fun kl => kl.fst == key) = none := by
    cases hf : links.find? (fun kl => kl.fst == key) with
    | none => rfl
    | some v =>
      rw [hf] at h
      simp at h
  exact List.any_eq_false.mpr (List.find?_eq_none.mp hfind)

/-- For distinct keys, `get_directed_link` is the canonical-key lookup
re-oriented. -/
theorem get_directed_link_ne (app : App) {a b : Nat} (hne : a ≠ b) :
    app.get_directed_link a b = .ok ((lookupLink app.links
      (if a < b then (a, b) else (b, a))).map (fun link =>
      { close_key := a
        far_key := b
        close_ip := if a < b then link.r1 else link.r2
        far_ip := if a < b then link.r2 else link.r1
        close_iface := if a < b then link.r1_iface else link.r2_iface
        ospf_area := link.ospf_area })) := by
  unfold App.get_directed_link
  rw [if_neg hne]

/-- **C8, counterexample.**  When the pair is already linked, `link` then
`unlink` does not restore the stored-link count to its value before the
`link` call: starting from `c1s3`, where `(0,1)` is linked and the count is
1, re-linking and unlinking leaves 0 links. -/
theorem c8_counterexample :
    c1s3.links.length = 1 ∧
    c1s3.link 0 1 blk4 none = .ok c1s4 ∧
    c1s4.unlink 0 1 =
      .ok (⟨[⟨"R1", ⟨false⟩, 2⟩, ⟨"R2", ⟨false⟩, 2⟩], [], []⟩ : App) ∧
    (⟨[⟨"R1", ⟨false⟩, 2⟩, ⟨"R2", ⟨false⟩, 2⟩], [], []⟩ : App).links.length = 0 ∧
    (⟨[⟨"R1", ⟨false⟩, 2⟩, ⟨"R2", ⟨false⟩, 2⟩], [], []⟩ : App).get_directed_link 0 1 =
      .ok none ∧
    (0 : Nat) ≠ 1 := by
  decide

/-- **C8, amended.**  Provided the pair was **not already linked**,
`link(a,b,X)` followed by `unlink(a,b)` makes `lookupOriented(a,b)` return
`None` and restores the stored-link count (if the pair was already linked
the count drops by one instead, the pre-existing record having been
removed); `unlink` on a non-existent pair is a no-op returning the state
unchanged; and absence of a link is the normal value `None`, never an
error. -/
theorem c8_link_unlink_roundtrip (s s1 s2 : App) (a b : Nat) (ip : Ipv4Net)
    (ar : Option Nat)
    (hfresh : lookupLink s.links (if a < b then (a, b) else (b, a)) = none)
    (h1 : s.link a b ip ar = .ok s1) (h2 : s1.unlink a b = .ok s2) :
    s2.get_directed_link a b = .ok none ∧
    s2.links.length = s.links.length ∧
    (∀ (t : App) (c d : Nat), c ≠ d →
      lookupLink t.links (if c < d then (c, d) else (d, c)) = none →
      t.unlink c d = .ok t) := by
  have hnoop : ∀ (t : App) (c d : Nat), c ≠ d →
      lookupLink t.links (if c < d then (c, d) else (d, c)) = none →
      t.unlink c d = .ok t := by
    intro t c d hne hnone
    have hall := List.any_eq_false.mp (lookup_none_any_false hnone)
    have herase : t.links.eraseP
        (fun kl => kl.fst == (if c < d then (c, d) else (d, c))) = t.links :=
      List.eraseP_of_forall_not hall
    simp only [App.unlink, if_neg hne, herase]
  obtain ⟨hne, -, hs1⟩ := link_ok_elim h1
  have hany := lookup_none_any_false hfresh
  obtain ⟨-, hs2⟩ := unlink_ok_elim h2
  have hl1 : s1.links = s.links ++ [((if a < b then (a, b) else (b, a)),
      { r1 := to_ipnet (ip.hosts.getD 0 0) ip.prefix_len
        r2 := to_ipnet (ip.hosts.getD 1 0) ip.prefix_len
        ospf_area := ar
        r1_iface := (s.devices.getD (if a < b then a else b) default).next_iface
        r2_iface := (s.devices.getD (if a < b then b else a) default).next_iface })] := by
    rw [hs1]
    show upsertLink s.links (if a < b then (a, b) else (b, a)) _ = _
    unfold upsertLink
    rw [if_neg (by simp [hany])]
  have hl2 : s2.links = s.links := by
    rw [hs2]
    show s1.links.eraseP
      (fun kl => kl.fst == (if a < b then (a, b) else (b, a))) = s.links
    rw [hl1, List.eraseP_append_right _ (List.any_eq_false.mp hany),
      List.eraseP_cons_of_pos (by simp), List.append_nil]
  refine ⟨?_, by rw [hl2], hnoop⟩
  rw [get_directed_link_ne s2 hne, hl2, hfresh]
  rfl

/-- Witness for `c8_link_unlink_roundtrip`: link then unlink the fresh pair
`(0,1)` of the two-device fixture. -/
theorem c8_witness :
    (⟨[⟨"R1", ⟨false⟩, 1⟩, ⟨"R2", ⟨false⟩, 1⟩], [], []⟩ : App).get_directed_link 0 1 =
      .ok none ∧
    (⟨[⟨"R1", ⟨false⟩, 1⟩, ⟨"R2", ⟨false⟩, 1⟩], [], []⟩ : App).links.length =
      demoApp.links.length ∧
    demoApp.unlink 0 1 = .ok demoApp := by
  have h := c8_link_unlink_roundtrip demoApp c1s3
    ⟨[⟨"R1", ⟨false⟩, 1⟩, ⟨"R2", ⟨false⟩, 1⟩], [], []⟩ 0 1 blk0 none
    (by decide) (by decide) (by decide)
  exact ⟨h.1, h.2.1, h.2.2 demoApp 0 1 (by decide) (by decide)⟩

/-- Three devices `R1`, `R2`, `R3`. -/
def demoApp3 : App := (demoApp.add_device "R3" false).snd

/-- `10.0.0.8/30`. -/
def blk8 : Ipv4Net := ⟨167772168, 30⟩

/-- State after `link(R1,R2,10.0.0.0/30)` on `demoApp3`. -/
def c5sA : App :=
  ⟨[⟨"R1", ⟨false⟩, 1⟩, ⟨"R2", ⟨false⟩, 1⟩, ⟨"R3", ⟨false⟩, 0⟩],
   [((0, 1), ⟨⟨167772161, 30⟩, ⟨167772162, 30⟩, 0, 0, none⟩)], []⟩

/-- State after the further `link(R1,R3,10.0.0.4/30)`. -/
def c5sB : App :=
  ⟨[⟨"R1", ⟨false⟩, 2⟩, ⟨"R2", ⟨false⟩, 1⟩, ⟨"R3", ⟨false⟩, 1⟩],
   [((0, 1), ⟨⟨167772161, 30⟩, ⟨167772162, 30⟩, 0, 0, none⟩),
    ((0, 2), ⟨⟨167772165, 30⟩, ⟨167772166, 30⟩, 1, 0, none⟩)], []⟩

/-- State after the further re-`link(R1,R2,10.0.0.8/30)`. -/
def c5sC : App :=
  ⟨[⟨"R1", ⟨false⟩, 3⟩, ⟨"R2", ⟨false⟩, 2⟩, ⟨"R3", ⟨false⟩, 1⟩],
   [((0, 1), ⟨⟨167772169, 30⟩, ⟨167772170, 30⟩, 2, 1, none⟩),
    ((0, 2), ⟨⟨167772165, 30⟩, ⟨167772166, 30⟩, 1, 0, none⟩)], []⟩

/-- **C5.**  The compiler emits each device's directly connected links in
the link-storage iteration order (arbitrary for the source's `HashMap`,
insertion order in this embedding) — it applies no sort.  After
`link(R1,R2); link(R1,R3); link(R1,R2)` the emission sequence for `R1` has
interface indices `[2, 1]`, which is not ascending, so the output is not
sorted by `closeIface` as the specification mandates. -/
theorem c5_emission_follows_storage_order :
    demoApp3.link 0 1 blk0 none = .ok c5sA ∧
    c5sA.link 0 2 blk4 none = .ok c5sB ∧
    c5sB.link 0 1 blk8 none = .ok c5sC ∧
    (directlyConnected c5sC 0).map (fun l => l.close_iface) = [2, 1] ∧
    ¬ List.Pairwise (· ≤ ·) ((directlyConnected c5sC 0).map (fun l => l.close_iface)) := by
  decide

/-! ## The name-keyed output map (C10) -/

theorem getD_eq_get {α : Type} (l : List α) (d : α) {i : Nat} (h : i < l.length) :
    l.getD i d = l.get ⟨i, h⟩ := by
  induction l generalizing i with
  | nil => simp at h
  | cons x xs ih =>
    cases i with
    | zero => rfl
    | succ i => exact ih (by simpa using h)

theorem keys_insertReplace_pos {m : List (String × String)} {k : String} (v : String)
    (h : m.any (fun e => e.fst == k)) :
    (insertReplace m k v).map (·.fst) = m.map (·.fst) := by
  unfold insertReplace
  rw [if_pos h, List.map_map]
  refine List.map_congr_left (fun e _ => ?_)
  by_cases hk : e.fst = k
  · simp [hk]
  · simp [hk]

theorem keys_insertReplace_neg {m : List (String × String)} {k : String} (v : String)
    (h : ¬ m.any (fun e => e.fst == k)) :
    (insertReplace m k v).map (·.fst) = m.map (·.fst) ++ [k] ∧
      k ∉ m.map (·.fst) := by
  unfold insertReplace
  rw [if_neg h]
  refine ⟨by simp, fun hmem => h ?_⟩
  obtain ⟨e, he, hfst⟩ := List.mem_map.mp hmem
  exact List.any_eq_true.mpr ⟨e, he, by simp [hfst]⟩

theorem length_insertReplace (m : List (String × String)) (k v : String) :
    (insertReplace m k v).length =
      if m.any (fun e => e.fst == k) then m.length else m.length + 1 := by
  unfold insertReplace
  split
  · rw [List.length_map]
  · rw [List.length_append]
    rfl

/-- The fold in `to_commands`, recast over the list of (name, text) pairs. -/
def insertAll (m : List (String × String)) : List (String × String) → List (String × String)
  | [] => m
  | p :: ps => insertAll (insertReplace m p.fst p.snd) ps

theorem foldl_insertAll (app : App) (ps : List (Nat × Device))
    (m : List (String × String)) :
    ps.foldl (fun m kv => insertReplace m kv.snd.name (deviceCommands app kv.fst kv.snd)) m =
      insertAll m (ps.map (fun kv => (kv.snd.name, deviceCommands app kv.fst kv.snd))) := by
  induction ps generalizing m with
  | nil => rfl
  | cons p ps ih => simp [List.foldl_cons, List.map_cons, insertAll, ih]

theorem to_commands_eq_insertAll (app : App) :
    app.to_commands = insertAll []
      (app.devices.enum.map (fun kv => (kv.snd.name, deviceCommands app kv.fst kv.snd))) :=
  foldl_insertAll app app.devices.enum []

theorem mem_keys_of_any {m : List (String × String)} {k : String}
    (h : m.any (fun e => e.fst == k)) : k ∈ m.map (·.fst) := by
  obtain ⟨e, he, hk⟩ := List.any_eq_true.mp h
  have : e.fst = k := by simpa using hk
  exact this ▸ List.mem_map_of_mem (·.fst) he

theorem insertAll_keys (ps : List (String × String)) (m : List (String × String))
    (hm : (m.map (·.fst)).Nodup) :
    ((insertAll m ps).map (·.fst)).Nodup ∧
    (∀ k, k ∈ (insertAll m ps).map (·.fst) ↔
      k ∈ m.map (·.fst) ∨ k ∈ ps.map (·.fst)) := by
  induction ps generalizing m with
  | nil => exact ⟨hm, by simp [insertAll]⟩
  | cons p ps ih =>
    simp only [insertAll]
    by_cases h : m.any (fun e => e.fst == p.fst)
    · have hk := keys_insertReplace_pos (m := m) p.snd h
      obtain ⟨ihn, ihm⟩ := ih (insertReplace m p.fst p.snd) (by rw [hk]; exact hm)
      refine ⟨ihn, fun k => ?_⟩
      rw [ihm k, hk, List.map_cons]
      constructor
      · rintro (hkm | hkp)
        · exact Or.inl hkm
        · exact Or.inr (List.mem_cons_of_mem _ hkp)
      · rintro (hkm | hkp)
        · exact Or.inl hkm
        · rcases List.mem_cons.mp hkp with rfl | hkp
          · exact Or.inl (mem_keys_of_any h)
          · exact Or.inr hkp
    · obtain ⟨hkeys, hnotin⟩ := keys_insertReplace_neg (m := m) p.snd h
      obtain ⟨ihn, ihm⟩ := ih (insertReplace m p.fst p.snd)
        (by rw [hkeys]; simp [List.nodup_append, hm, hnotin])
      refine ⟨ihn, fun k => ?_⟩
      rw [ihm k, hkeys, List.map_cons]
      simp only [List.mem_append, List.mem_singleton, List.mem_cons]
      tauto

theorem countP_fst_of_nodup (m : List (String × String)) (k : String)
    (h : (m.map (·.fst)).Nodup) :
    m.countP (fun e => e.fst == k) = if k ∈ m.map (·.fst) then 1 else 0 := by
  induction m with
  | nil => simp
  | cons e m ih =>
    rw [List.map_cons, List.nodup_cons] at h
    by_cases hk : e.fst = k
    · have hzero : m.countP (fun e => e.fst == k) = 0 := by
        rw [List.countP_eq_zero]
        intro x hx hpx
        refine h.1 ?_
        rw [hk]
        have hfx : x.fst = k := by simpa using hpx
        exact hfx ▸ List.mem_map_of_mem (·.fst) hx
      simp [List.countP_cons, hk, hzero]
    · have hkb : (e.fst == k) = false := by simpa using hk
      rw [List.countP_cons, hkb, List.map_cons]
      rw [ih h.2]
      have hiff : (k ∈ e.fst :: List.map (fun x => x.fst) m) ↔
          k ∈ List.map (fun x => x.fst) m := by
        rw [List.mem_cons]
        constructor
        · rintro (rfl | hx)
          · exact absurd rfl hk
          · exact hx
        · exact Or.inr
      rw [if_congr hiff rfl rfl]
      simp

theorem insertAll_length_le (ps : List (String × String)) (m : List (String × String)) :
    (insertAll m ps).length ≤ m.length + ps.length := by
  induction ps generalizing m with
  | nil => simp [insertAll]
  | cons p ps ih =>
    show (insertAll (insertReplace m p.fst p.snd) ps).length ≤ _
    have hle := ih (insertReplace m p.fst p.snd)
    rw [length_insertReplace] at hle
    revert hle
    split
    · intro hle
      simp only [List.length_cons]
      omega
    · intro hle
      simp only [List.length_cons]
      omega

theorem insertAll_length_lt (ps : List (String × String)) (m : List (String × String))
    (hm : (m.map (·.fst)).Nodup)
    (h : ¬ (m.map (·.fst) ++ ps.map (·.fst)).Nodup) :
    (insertAll m ps).length < m.length + ps.length := by
  induction ps generalizing m with
  | nil => exact absurd (by simpa using hm) h
  | cons p ps ih =>
    show (insertAll (insertReplace m p.fst p.snd) ps).length < _
    by_cases hin : m.any (fun e => e.fst == p.fst)
    · have hle := insertAll_length_le ps (insertReplace m p.fst p.snd)
      rw [length_insertReplace, if_pos hin] at hle
      simp only [List.length_cons]
      omega
    · obtain ⟨hkeys, hnotin⟩ := keys_insertReplace_neg (m := m) p.snd hin
      have hm' : ((insertReplace m p.fst p.snd).map (·.fst)).Nodup := by
        rw [hkeys]
        simp [List.nodup_append, hm, hnotin]
      have h' : ¬ ((insertReplace m p.fst p.snd).map (·.fst) ++ ps.map (·.fst)).Nodup := by
        rw [hkeys, List.append_assoc, List.singleton_append]
        intro hc
        exact h (by simpa using hc)
      have hlt := ih (insertReplace m p.fst p.snd) hm' h'
      rw [length_insertReplace, if_neg hin] at hlt
      simp only [List.length_cons]
      omega

/-- **C10.** The compiled output is keyed by device name with no uniqueness
enforcement at registration: whenever two registered devices share a name,
the output mapping holds exactly one entry for that name (one device's text
has silently overwritten the other's in the `HashMap`), so the mapping has
strictly fewer entries than there are registered devices. -/
theorem c10_name_keyed_output (app : App) (i j : Nat) (hi : i < app.devices.length)
    (hj : j < app.devices.length) (hij : i ≠ j)
    (hname : (app.devices.getD i default).name = (app.devices.getD j default).name) :
    app.to_commands.countP
      (fun e => e.fst == (app.devices.getD i default).name) = 1 ∧
    app.to_commands.length < app.devices.length := by
  have hps : (app.devices.enum.map
      (fun kv => (kv.snd.name, deviceCommands app kv.fst kv.snd))).map (·.fst) =
      app.devices.map (·.name) := by
    rw [List.map_map]
    have : ((fun e => e.fst) ∘
        (fun kv : Nat × Device => (kv.snd.name, deviceCommands app kv.fst kv.snd))) =
        ((fun d : Device => d.name) ∘ Prod.snd) := rfl
    rw [this, ← List.map_map, List.enum_map_snd]
  have hnamesdup : ¬ (app.devices.map (·.name)).Nodup := by
    intro hnd
    have hgi : (app.devices.map (·.name)).get ⟨i, by simpa using hi⟩ =
        (app.devices.getD i default).name := by
      rw [List.get_map, getD_eq_get _ _ hi]
    have hgj : (app.devices.map (·.name)).get ⟨j, by simpa using hj⟩ =
        (app.devices.getD j default).name := by
      rw [List.get_map, getD_eq_get _ _ hj]
    have heq : (app.devices.map (·.name)).get ⟨i, by simpa using hi⟩ =
        (app.devices.map (·.name)).get ⟨j, by simpa using hj⟩ := by
      rw [hgi, hgj, hname]
    have := (hnd.get_inj_iff).mp heq
    exact hij (by simpa using congrArg Fin.val this)
  have hmemname : (app.devices.getD i default).name ∈ app.devices.map (·.name) := by
    rw [getD_eq_get _ _ hi]
    exact List.mem_map_of_mem (fun d : Device => d.name) (List.get_mem app.devices i hi)
  rw [to_commands_eq_insertAll]
  obtain ⟨hnodup, hmem⟩ := insertAll_keys
    (app.devices.enum.map (fun kv => (kv.snd.name, deviceCommands app kv.fst kv.snd)))
    [] (by simp)
  constructor
  · rw [countP_fst_of_nodup _ _ hnodup, if_pos]
    rw [hmem]
    right
    rw [hps]
    exact hmemname
  · have hlt := insertAll_length_lt
      (app.devices.enum.map (fun kv => (kv.snd.name, deviceCommands app kv.fst kv.snd)))
      [] (by simp) (by simpa [hps] using hnamesdup)
    have hlen : (app.devices.enum.map
        (fun kv => (kv.snd.name, deviceCommands app kv.fst kv.snd))).length =
        app.devices.length := by
      rw [List.length_map, List.enum_length]
    simp only [List.length_nil, Nat.zero_add] at hlt
    omega

/-- Witness for `c10_name_keyed_output`: two devices both named `R1`. -/
theorem c10_witness :
    ((demoApp.add_device "R1" true).snd.to_commands).countP
      (fun e => e.fst == "R1") = 1 ∧
    ((demoApp.add_device "R1" true).snd.to_commands).length <
      (demoApp.add_device "R1" true).snd.devices.length := by
  have h := c10_name_keyed_output (demoApp.add_device "R1" true).snd 0 2
    (by decide) (by decide) (by decide) (by decide)
  exact h

/-! ## Characterizing the emitted configuration text (C4, C6) -/

/-- Concatenation of a list of strings (spec-side vocabulary for
"these lines, in this order"). -/
def strConcat : List String → String
  | [] => ""
  | s :: ss => s ++ strConcat ss

theorem strConcat_append (l1 l2 : List String) :
    strConcat (l1 ++ l2) = strConcat l1 ++ strConcat l2 := by
  induction l1 with
  | nil => simp [strConcat, String.empty_append]
  | cons s ss ih => simp [strConcat, ih, String.append_assoc]

theorem strConcat_flatten (ls : List (List String)) (f : String → String) :
    strConcat (ls.flatten.map f) = strConcat (ls.map (fun x => strConcat (x.map f))) := by
  induction ls with
  | nil => rfl
  | cons x xs ih =>
    rw [List.flatten_cons, List.map_append, strConcat_append, ih, List.map_cons, strConcat]

theorem strConcat_map_congr {α : Type} {l : List α} {f g : α → String}
    (h : ∀ x ∈ l, f x = g x) :
    strConcat (l.map f) = strConcat (l.map g) := by
  rw [List.map_congr_left h]

/-- The interface loop appends one stanza per directly connected link. -/
theorem ifaceLoop_eq (ls : List DirectedLink) (res : String) :
    ifaceLoop res ls = res ++ strConcat (ls.map (fun l =>
      "interface GigabitEthernet " ++ showNat l.close_iface ++ "/0\n" ++
      "   ip address " ++ showIp l.close_ip.addr ++ " " ++
      showIp (netmaskNat l.close_ip.prefix_len) ++ "\n" ++
      "   no shutdown\n" ++ "exit\n" ++ "\n")) := by
  induction ls generalizing res with
  | nil => simp [ifaceLoop, strConcat, String.append_empty]
  | cons l ls ih =>
    rw [ifaceLoop, ih, List.map_cons, strConcat]
    simp [String.append_assoc]

/-- The RIP loop appends one `network` line per directly connected link
whose far endpoint is RIP-enabled. -/
theorem ripLoop_eq (rip : List Nat) (ls : List DirectedLink) (res : String) :
    ripLoop rip res ls = res ++ strConcat
      ((ls.filter (fun l => rip.contains l.far_key)).map
        (fun l => "   network " ++ showIp l.far_ip.network ++ "\n")) := by
  induction ls generalizing res with
  | nil => simp [ripLoop, strConcat, String.append_empty]
  | cons l ls ih =>
    rw [ripLoop]
    by_cases h : rip.contains l.far_key
    · have hfc : List.filter (fun l => rip.contains l.far_key) (l :: ls) =
          l :: List.filter (fun l => rip.contains l.far_key) ls :=
        List.filter_cons_of_pos h
      rw [if_pos h, ih, hfc, List.map_cons, strConcat]
      simp [String.append_assoc]
    · have hfc : List.filter (fun l => rip.contains l.far_key) (l :: ls) =
          List.filter (fun l => rip.contains l.far_key) ls :=
        List.filter_cons_of_neg h
      rw [if_neg h, ih, hfc]

/-- The OSPF loop appends one `network ... area` line per directly
connected link whose area is set. -/
theorem ospfLoop_eq (ls : List DirectedLink) (res : String) :
    ospfLoop res ls = res ++ strConcat
      (ls.filterMap (fun l => l.ospf_area.map (fun a =>
        "   network " ++ showIp l.far_ip.network ++ " " ++
        showIp (hostmaskNat l.far_ip.prefix_len) ++ " area " ++ showNat a ++ "\n"))) := by
  induction ls generalizing res with
  | nil => simp [ospfLoop, strConcat, String.append_empty]
  | cons l ls ih =>
    cases harea : l.ospf_area with
    | none =>
      have hstep : ospfLoop res (l :: ls) = ospfLoop res ls := by
        rw [ospfLoop, harea]
      have hfc : List.filterMap (fun l => l.ospf_area.map (fun a =>
          "   network " ++ showIp l.far_ip.network ++ " " ++
          showIp (hostmaskNat l.far_ip.prefix_len) ++ " area " ++ showNat a ++ "\n"))
          (l :: ls) =
          List.filterMap (fun l => l.ospf_area.map (fun a =>
          "   network " ++ showIp l.far_ip.network ++ " " ++
          showIp (hostmaskNat l.far_ip.prefix_len) ++ " area " ++ showNat a ++ "\n")) ls :=
        List.filterMap_cons_none (by rw [harea]; rfl)
      rw [hstep, ih, hfc]
    | some a =>
      have hstep : ospfLoop res (l :: ls) = ospfLoop
          (res ++ "   network " ++ showIp l.far_ip.network ++ " " ++
            showIp (hostmaskNat l.far_ip.prefix_len) ++ " area " ++ showNat a ++ "\n") ls := by
        rw [ospfLoop, harea]
      have hfc : List.filterMap (fun l => l.ospf_area.map (fun a =>
          "   network " ++ showIp l.far_ip.network ++ " " ++
          showIp (hostmaskNat l.far_ip.prefix_len) ++ " area " ++ showNat a ++ "\n"))
          (l :: ls) =
          ("   network " ++ showIp l.far_ip.network ++ " " ++
            showIp (hostmaskNat l.far_ip.prefix_len) ++ " area " ++ showNat a ++ "\n") ::
          List.filterMap (fun l => l.ospf_area.map (fun a =>
          "   network " ++ showIp l.far_ip.network ++ " " ++
          showIp (hostmaskNat l.far_ip.prefix_len) ++ " area " ++ showNat a ++ "\n")) ls :=
        List.filterMap_cons_some (by rw [harea]; rfl)
      rw [hstep, ih, hfc, strConcat]
      simp [String.append_assoc]

/-- Structure of the text compiled for one device: header, one interface
stanza per directly connected link, the RIP section, the OSPF section, and
the closing lines, in that order. -/
theorem deviceCommands_eq (app : App) (ck : Nat) (dev : Device) :
    deviceCommands app ck dev =
      "enable\nconfigure terminal\n\n" ++
      strConcat ((directlyConnected app ck).map (fun l =>
        "interface GigabitEthernet " ++ showNat l.close_iface ++ "/0\n" ++
        "   ip address " ++ showIp l.close_ip.addr ++ " " ++
        showIp (netmaskNat l.close_ip.prefix_len) ++ "\n" ++
        "   no shutdown\n" ++ "exit\n" ++ "\n")) ++
      ("router rip\n   version 2\n" ++
        strConcat (((directlyConnected app ck).filter
            (fun l => app.rip_enabled.contains l.far_key)).map
          (fun l => "   network " ++ showIp l.far_ip.network ++ "\n")) ++
        "exit\n\n") ++
      ("router ospf 1\n" ++
        (if dev.redistributions.ospf_to_rip then "   redistribute rip subnets\n" else "") ++
        strConcat ((directlyConnected app ck).filterMap
          (fun l => l.ospf_area.map (fun a =>
            "   network " ++ showIp l.far_ip.network ++ " " ++
            showIp (hostmaskNat l.far_ip.prefix_len) ++ " area " ++ showNat a ++ "\n"))) ++
        "exit\n\n") ++
      "\nexit\ndisable\n" := by
  simp only [deviceCommands]
  rw [ifaceLoop_eq, ripLoop_eq, ospfLoop_eq]
  by_cases hf : dev.redistributions.ospf_to_rip
  · rw [if_pos hf, if_pos hf]
    simp only [String.append_assoc]
  · rw [if_neg hf, if_neg hf]
    simp only [String.append_assoc, String.append_empty, String.empty_append]

/-- **C4.** In the text compiled for each device: the RIP section holds
exactly one `network` line per directly connected link whose far endpoint
is in the RIP-enabled set, the network address being the far address AND
its mask; the OSPF section holds the `redistribute rip subnets` line
exactly when the device's flag is set, and exactly one
`network <net> <wildcard> area <a>` line per directly connected link whose
area is set, with the far side's network address and the complement-of-mask
wildcard `2^(32-p) - 1`. -/
theorem c4_rip_ospf_sections (app : App) (ck : Nat) (dev : Device) :
    deviceCommands app ck dev =
      "enable\nconfigure terminal\n\n" ++
      strConcat ((directlyConnected app ck).map (fun l =>
        "interface GigabitEthernet " ++ showNat l.close_iface ++ "/0\n" ++
        "   ip address " ++ showIp l.close_ip.addr ++ " " ++
        showIp (2 ^ 32 - 2 ^ (32 - l.close_ip.prefix_len)) ++ "\n" ++
        "   no shutdown\n" ++ "exit\n" ++ "\n")) ++
      ("router rip\n   version 2\n" ++
        strConcat (((directlyConnected app ck).filter
            (fun l => app.rip_enabled.contains l.far_key)).map
          (fun l => "   network " ++
            showIp (Nat.land l.far_ip.addr (2 ^ 32 - 2 ^ (32 - l.far_ip.prefix_len))) ++
            "\n")) ++
        "exit\n\n") ++
      ("router ospf 1\n" ++
        (if dev.redistributions.ospf_to_rip then "   redistribute rip subnets\n" else "") ++
        strConcat ((directlyConnected app ck).filterMap
          (fun l => l.ospf_area.map (fun a =>
            "   network " ++
            showIp (Nat.land l.far_ip.addr (2 ^ 32 - 2 ^ (32 - l.far_ip.prefix_len))) ++
            " " ++ showIp (2 ^ (32 - l.far_ip.prefix_len) - 1) ++
            " area " ++ showNat a ++ "\n"))) ++
        "exit\n\n") ++
      "\nexit\ndisable\n" :=
  deviceCommands_eq app ck dev

/-- One interface stanza, expressed line by line. -/
theorem stanza_lines_eq (l : DirectedLink) :
    strConcat ((["interface GigabitEthernet " ++ showNat l.close_iface ++ "/0",
      "   ip address " ++ showIp l.close_ip.addr ++ " " ++
        showIp (netmaskNat l.close_ip.prefix_len),
      "   no shutdown", "exit", ""]).map (fun line => line ++ "\n")) =
    "interface GigabitEthernet " ++ showNat l.close_iface ++ "/0\n" ++
      "   ip address " ++ showIp l.close_ip.addr ++ " " ++
      showIp (netmaskNat l.close_ip.prefix_len) ++ "\n" ++
      "   no shutdown\n" ++ "exit\n" ++ "\n" := by
  have h1 : ("/0\n" : String) = "/0" ++ "\n" := by decide
  have h2 : ("   no shutdown\n" : String) = "   no shutdown" ++ "\n" := by decide
  have h3 : ("exit\n" : String) = "exit" ++ "\n" := by decide
  simp only [List.map_cons, List.map_nil, strConcat]
  rw [h1, h2, h3]
  simp only [String.append_assoc, String.append_empty, String.empty_append]

set_option maxRecDepth 8000 in
/-- **C6, counterexample.**  The compiled text does not match the claimed
grammar exactly: the interface stanza reads `interface GigabitEthernet 0/0`
— with a space between `GigabitEthernet` and the index, which the claim
forbids — and the text ends with two blank lines (`exit\n\n\nexit\n`)
before the final `exit`/`disable`, not the grammar's single one. -/
theorem c6_counterexample :
    c1s3.to_commands =
      [("R1", "enable\nconfigure terminal\n\ninterface GigabitEthernet 0/0\n   ip address 10.0.0.1 255.255.255.252\n   no shutdown\nexit\n\nrouter rip\n   version 2\nexit\n\nrouter ospf 1\nexit\n\n\nexit\ndisable\n"),
       ("R2", "enable\nconfigure terminal\n\ninterface GigabitEthernet 0/0\n   ip address 10.0.0.2 255.255.255.252\n   no shutdown\nexit\n\nrouter rip\n   version 2\nexit\n\nrouter ospf 1\nexit\n\n\nexit\ndisable\n")] ∧
    ("interface GigabitEthernet 0/0\n").data <:+:
      ("enable\nconfigure terminal\n\ninterface GigabitEthernet 0/0\n   ip address 10.0.0.1 255.255.255.252\n   no shutdown\nexit\n\nrouter rip\n   version 2\nexit\n\nrouter ospf 1\nexit\n\n\nexit\ndisable\n").data ∧
    ¬ (("interface GigabitEthernet0").data <:+:
      ("enable\nconfigure terminal\n\ninterface GigabitEthernet 0/0\n   ip address 10.0.0.1 255.255.255.252\n   no shutdown\nexit\n\nrouter rip\n   version 2\nexit\n\nrouter ospf 1\nexit\n\n\nexit\ndisable\n").data) ∧
    ("exit\n\n\nexit\ndisable\n").data <:+
      ("enable\nconfigure terminal\n\ninterface GigabitEthernet 0/0\n   ip address 10.0.0.1 255.255.255.252\n   no shutdown\nexit\n\nrouter rip\n   version 2\nexit\n\nrouter ospf 1\nexit\n\n\nexit\ndisable\n").data := by
  refine ⟨by decide, by decide, by decide, by decide⟩

/-- **C6, amended.**  Every compiled device text follows the literal
grammar with two corrections to the claim: the interface stanza line is
`interface GigabitEthernet <N>/0` **with a space** before `<N>`, and two
blank lines (not one) separate the OSPF section's `exit` from the closing
`exit`/`disable`.  The text begins with `enable`, `configure terminal`;
each stanza is exactly the interface line, the indented `ip address` and
`no shutdown` lines, and `exit`; sections appear in the fixed order
interfaces, RIP, OSPF; the text ends with `exit` then `disable`. -/
theorem c6_amended_grammar (app : App) (ck : Nat) (dev : Device) :
    deviceCommands app ck dev = strConcat ((
      ["enable", "configure terminal", ""] ++
      ((directlyConnected app ck).map (fun l =>
        ["interface GigabitEthernet " ++ showNat l.close_iface ++ "/0",
         "   ip address " ++ showIp l.close_ip.addr ++ " " ++
           showIp (netmaskNat l.close_ip.prefix_len),
         "   no shutdown", "exit", ""])).flatten ++
      (["router rip", "   version 2"] ++
        (((directlyConnected app ck).filter
            (fun l => app.rip_enabled.contains l.far_key)).map
          (fun l => "   network " ++ showIp l.far_ip.network)) ++
        ["exit", ""]) ++
      (["router ospf 1"] ++
        (if dev.redistributions.ospf_to_rip then ["   redistribute rip subnets"] else []) ++
        ((directlyConnected app ck).filterMap (fun l => l.ospf_area.map (fun a =>
          "   network " ++ showIp l.far_ip.network ++ " " ++
          showIp (hostmaskNat l.far_ip.prefix_len) ++ " area " ++ showNat a))) ++
        ["exit", ""]) ++
      ["", "exit", "disable"]).map (fun line => line ++ "\n")) := by
  rw [deviceCommands_eq]
  simp only [List.map_append, strConcat_append]
  have hhead : strConcat ((["enable", "configure terminal", ""]).map
      (fun line => line ++ "\n")) = "enable\nconfigure terminal\n\n" := by decide
  have hrr : strConcat ((["router rip", "   version 2"]).map
      (fun line => line ++ "\n")) = "router rip\n   version 2\n" := by decide
  have hro : strConcat ((["router ospf 1"]).map
      (fun line => line ++ "\n")) = "router ospf 1\n" := by decide
  have hex : strConcat ((["exit", ""]).map
      (fun line => line ++ "\n")) = "exit\n\n" := by decide
  have htail : strConcat ((["", "exit", "disable"]).map
      (fun line => line ++ "\n")) = "\nexit\ndisable\n" := by decide
  have hstanzas : strConcat ((((directlyConnected app ck).map (fun l =>
      ["interface GigabitEthernet " ++ showNat l.close_iface ++ "/0",
       "   ip address " ++ showIp l.close_ip.addr ++ " " ++
         showIp (netmaskNat l.close_ip.prefix_len),
       "   no shutdown", "exit", ""])).flatten).map (fun line => line ++ "\n")) =
      strConcat ((directlyConnected app ck).map (fun l =>
        "interface GigabitEthernet " ++ showNat l.close_iface ++ "/0\n" ++
        "   ip address " ++ showIp l.close_ip.addr ++ " " ++
        showIp (netmaskNat l.close_ip.prefix_len) ++ "\n" ++
        "   no shutdown\n" ++ "exit\n" ++ "\n")) := by
    rw [strConcat_flatten, List.map_map]
    exact strConcat_map_congr (fun l _ => stanza_lines_eq l)
  have hrip : strConcat (((((directlyConnected app ck).filter
      (fun l => app.rip_enabled.contains l.far_key)).map
        (fun l => "   network " ++ showIp l.far_ip.network))).map
      (fun line => line ++ "\n")) =
      strConcat ((((directlyConnected app ck).filter
        (fun l => app.rip_enabled.contains l.far_key))).map
        (fun l => "   network " ++ showIp l.far_ip.network ++ "\n")) := by
    rw [List.map_map]
    exact strConcat_map_congr (fun l _ => by simp [String.append_assoc])
  have hospf : strConcat ((((directlyConnected app ck).filterMap
      (fun l => l.ospf_area.map (fun a =>
        "   network " ++ showIp l.far_ip.network ++ " " ++
        showIp (hostmaskNat l.far_ip.prefix_len) ++ " area " ++ showNat a)))).map
      (fun line => line ++ "\n")) =
      strConcat ((directlyConnected app ck).filterMap
        (fun l => l.ospf_area.map (fun a =>
          "   network " ++ showIp l.far_ip.network ++ " " ++
          showIp (hostmaskNat l.far_ip.prefix_len) ++ " area " ++ showNat a ++ "\n"))) := by
    rw [List.map_filterMap]
    refine congrArg strConcat (List.filterMap_congr (fun l _ => ?_))
    cases l.ospf_area with
    | none => rfl
    | some a => simp [String.append_assoc]
  have hred : strConcat (((if dev.redistributions.ospf_to_rip then
      ["   redistribute rip subnets"] else ([] : List String))).map
      (fun line => line ++ "\n")) =
      (if dev.redistributions.ospf_to_rip then "   redistribute rip subnets\n" else "") := by
    by_cases hf : dev.redistributions.ospf_to_rip
    · rw [if_pos hf, if_pos hf]
      decide
    · rw [if_neg hf, if_neg hf]
      rfl
  rw [hhead, hrr, hro, hex, htail, hstanzas, hrip, hospf, hred]

end Ptg
